import Mathlib

/-!
Shallow embedding of the message-versioning core of the telegram-bot
repository (src/database.py and src/bot.py), with theorems settling the
frozen claims about its specification.

Texts (message texts, usernames, hashtags) are modelled as lists of
naturals (character codes); timestamps as integers; the three database
tables (users, messages, message_versions) as lists of records, in
insertion order.  SQLAlchemy's `query(...).filter_by(...).first()` is
`List.find?`, mutation of the found ORM object is `updateFirst`, and
`session.add` appends a row.  `created_at` carries no weight in any claim
and is omitted from the message record.
-/

namespace TgBot

/-- A text value (message text, username, hashtag): a list of character codes. -/
abbrev Txt := List Nat

/-- Whether `pat` occurs at the start of `s`. -/
def isPre : Txt → Txt → Bool
  | [], _ => true
  | _ :: _, [] => false
  | a :: as, b :: bs => a == b && isPre as bs

/-- Whether `pat` occurs as a contiguous substring of `s`: the spec's
literal reading of "contains the hashtag as a substring" (section 4.3). -/
def isSub (pat : Txt) : Txt → Bool
  | [] => pat.isEmpty
  | b :: bs => isPre pat (b :: bs) || isSub pat bs

/-- All suffixes of a string, longest first, the empty suffix last. -/
def suffixes : Txt → List Txt
  | [] => [[]]
  | b :: bs => (b :: bs) :: suffixes bs

/-- SQL LIKE pattern matching over character codes: `%` (code 37) matches
any sequence of characters, `_` (code 95) matches exactly one character,
any other pattern character matches itself, and the whole pattern must
cover the whole string. -/
def likeMatch : Txt → Txt → Bool
  | [], s => s.isEmpty
  | c :: ps, s =>
      if c == 37 then
        (suffixes s).any (fun t => likeMatch ps t)
      else
        match s with
        | [] => false
        | d :: s2 => (c == 95 || c == d) && likeMatch ps s2

/-- The predicate the search queries apply to a stored text: the SQLAlchemy
filter `.like(f"%{hashtag}%")` of bot.py lines 271 and 282.  The hashtag is
interpolated into the pattern unescaped, so wildcard characters inside it
keep their SQL meaning. -/
def likeContains (hashtag text : Txt) : Bool :=
  likeMatch (37 :: (hashtag ++ [37])) text

/-- A hashtag carrying no SQL wildcard character: on such hashtags the LIKE
pattern coincides with literal substring containment. -/
abbrev noWild (pat : Txt) : Prop := 37 ∉ pat ∧ 95 ∉ pat

/-- The identity snapshot the messaging platform supplies with an event
(telegram's User object as read by the handlers in bot.py). -/
structure IncomingUser where
  id : Int
  username : Option Txt
  full_name : Option Txt
  first_name : Option Txt
  last_name : Option Txt
deriving DecidableEq

/-- A row of the `users` table (database.py, class User).  The surrogate
`id` column carries no behaviour and is omitted; `user_id` is the platform
identifier with the uniqueness constraint. -/
structure DUser where
  user_id : Int
  username : Option Txt
  full_name : Option Txt
  first_name : Option Txt
  last_name : Option Txt
deriving DecidableEq

/-- A row of the `messages` table (database.py, class Message).  `id` is the
platform message id, used directly as the primary key. -/
structure DMessage where
  id : Int
  chat_id : Int
  user_id : Int
  text : Txt
  is_deleted : Bool := false
  is_edited : Bool := false
deriving DecidableEq

/-- A row of the `message_versions` table (database.py, class MessageVersion). -/
structure DVersion where
  message_id : Int
  text : Txt
  edited_at : Int
deriving DecidableEq

/-- The persisted state: the three tables, rows in insertion order. -/
structure DB where
  users : List DUser
  messages : List DMessage
  versions : List DVersion
deriving DecidableEq

def emptyDB : DB := ⟨[], [], []⟩

/-- Mutating the first element satisfying `p` in place, as SQLAlchemy does
when a found ORM object's attribute is assigned. -/
def updateFirst (p : α → Bool) (g : α → α) : List α → List α
  | [] => []
  | x :: xs => if p x then g x :: xs else x :: updateFirst p g xs

/-- Python truthiness of an optional string: `None` and the empty string
are falsy. -/
def truthy : Option Txt → Bool
  | none => false
  | some s => !s.isEmpty

/-- database.py `get_or_create_user` (lines 79-106): look the user up by
`user_id`; if absent, insert a row built from all supplied fields; if
present, overwrite `username` when the supplied one is truthy and differs
(`if username and existing_user.username != username`), leaving every other
field alone.  The function commits the session itself (line 105). -/
def get_or_create_user (db : DB) (u : IncomingUser) : DB :=
  { db with users :=
      match db.users.find? (fun x => x.user_id == u.id) with
      | none =>
          db.users ++ [{ user_id := u.id, username := u.username,
                         full_name := u.full_name, first_name := u.first_name,
                         last_name := u.last_name }]
      | some ex =>
          if truthy u.username && ex.username != u.username then
            updateFirst (fun x => x.user_id == u.id)
              (fun x => { x with username := u.username }) db.users
          else db.users }

/-- Errors surfaced by the persistence layer. -/
inductive DbError where
  | duplicateMessage
  | persistence
deriving DecidableEq

/-- Outcome of one transactional unit of work: success with the new
persisted state, or failure together with the state that survives it. -/
inductive TxResult where
  | ok (db : DB)
  | fail (e : DbError) (db : DB)
deriving DecidableEq

/-- The persisted state after the unit of work, whether it succeeded or not. -/
def TxResult.state : TxResult → DB
  | .ok db => db
  | .fail _ db => db

/-- database.py `save_message` (lines 109-118) run inside `session_scope`
as bot.py's `handle_new_message` does: first `get_or_create_user` runs and
commits its own changes (line 105); then a Message row with the platform
message id as primary key is added, and the surrounding `session_scope`
commit raises on a primary-key collision, rolling back only what was not
yet committed — the message insert, not the user write. -/
def save_message_tx (db : DB) (chat_id : Int) (u : IncomingUser)
    (text : Txt) (message_id : Int) : TxResult :=
  let db1 := get_or_create_user db u
  if db1.messages.any (fun m => m.id == message_id) then
    .fail .duplicateMessage db1
  else
    .ok { db1 with messages :=
            db1.messages ++ [{ id := message_id, chat_id := chat_id,
                               user_id := u.id, text := text }] }

/-- The lookup filter of database.py `update_message` (line 125):
`filter_by(chat_id=chat_id, user_id=user_id, id=message_id)`. -/
def editKey (chat_id user_id message_id : Int) (m : DMessage) : Bool :=
  m.chat_id == chat_id && m.user_id == user_id && m.id == message_id

/-- database.py `update_message` (lines 121-136): find the message by
`(chat_id, user_id, id)`; if found, set `is_edited` and add a MessageVersion
row carrying the supplied text and timestamp; if not found, do nothing. -/
def update_message (db : DB) (chat_id user_id message_id : Int)
    (new_text : Txt) (edited_at : Int) : DB :=
  match db.messages.find? (editKey chat_id user_id message_id) with
  | none => db
  | some m =>
      { db with
        messages := updateFirst (editKey chat_id user_id message_id)
          (fun x => { x with is_edited := true }) db.messages,
        versions := db.versions ++ [{ message_id := m.id, text := new_text,
                                      edited_at := edited_at }] }

/-- The lookup filter of database.py `mark_message_as_deleted` (line 143):
`filter_by(chat_id=chat_id, user_id=user_id)` — no message id. -/
def delKey (chat_id user_id : Int) (m : DMessage) : Bool :=
  m.chat_id == chat_id && m.user_id == user_id

/-- database.py `mark_message_as_deleted` (lines 139-150): find the first
message by `(chat_id, user_id)` alone; if found, set `is_deleted`; if not
found, do nothing. -/
def mark_message_as_deleted (db : DB) (chat_id user_id : Int) : DB :=
  match db.messages.find? (delKey chat_id user_id) with
  | none => db
  | some _ =>
      { db with
        messages := updateFirst (delKey chat_id user_id)
          (fun x => { x with is_deleted := true }) db.messages }

/-- A search result's author field: a username, or the raw platform
identifier when no username is available. -/
inductive AuthorField where
  | uname (s : Txt)
  | rawId (i : Int)
deriving DecidableEq

/-- One entry of the hashtag search result: bot.py builds the dict
`{"text": ..., "author": ...}`. -/
structure SearchEntry where
  text : Txt
  author : AuthorField
deriving DecidableEq

/-- Author resolution `user.username or user.user_id` (bot.py lines 292 and
300-301): the user is fetched through the foreign key `user_id`; a `None`
or empty username falls back to the platform identifier. -/
def authorOf (db : DB) (uid : Int) : AuthorField :=
  match db.users.find? (fun x => x.user_id == uid) with
  | some u =>
      match u.username with
      | some s => if s.isEmpty then .rawId u.user_id else .uname s
      | none => .rawId u.user_id
  | none => .rawId uid

/-- The author of a version entry: `version.original_message.user.username
or ...user_id` (bot.py lines 300-301), the owning message reached through
the foreign key `message_id`. -/
def versionAuthor (db : DB) (v : DVersion) : AuthorField :=
  match db.messages.find? (fun m => m.id == v.message_id) with
  | some owner => authorOf db owner.user_id
  | none => .rawId v.message_id

/-- bot.py `find_messages_by_hashtag` body (lines 265-308): the first query
filters messages by chat and the unescaped LIKE pattern on the original
text; the second joins versions to their owning message, filtering by the
owner's chat and the same pattern on the version text; the result list
appends all message entries, then all version entries. -/
def find_messages_by_hashtag (db : DB) (chat_id : Int) (hashtag : Txt) :
    List SearchEntry :=
  let msgHits := db.messages.filter
    (fun m => m.chat_id == chat_id && likeContains hashtag m.text)
  let verHits := db.versions.filter
    (fun v => db.messages.any (fun m => m.id == v.message_id && m.chat_id == chat_id)
              && likeContains hashtag v.text)
  msgHits.map (fun m => { text := m.text, author := authorOf db m.user_id })
  ++ verHits.map (fun v => { text := v.text, author := versionAuthor db v })

/-- bot.py `find_messages_by_hashtag` as the caller sees it: the whole body,
session included, sits in a `try` whose `except` clause logs the error and
returns the empty list (lines 310-314), so an infrastructure failure of the
store produces `[]` rather than an exception. -/
def find_messages_by_hashtag_handled (store : Except DbError DB)
    (chat_id : Int) (hashtag : Txt) : List SearchEntry :=
  match store with
  | .error _ => []
  | .ok db => find_messages_by_hashtag db chat_id hashtag

/-- One inbound ledger event, as dispatched by the bot's handlers. -/
inductive Op where
  | newMsg (chat_id : Int) (u : IncomingUser) (text : Txt) (message_id : Int)
  | edit (chat_id user_id message_id : Int) (new_text : Txt) (edited_at : Int)
  | del (chat_id user_id : Int)

/-- The persisted state after handling one event (on failure, the state the
failure leaves behind). -/
def applyOp (db : DB) : Op → DB
  | .newMsg c u t mid => (save_message_tx db c u t mid).state
  | .edit c uid mid t ts => update_message db c uid mid t ts
  | .del c uid => mark_message_as_deleted db c uid

/-- The persisted state after a sequence of events. -/
def applyOps (db : DB) (ops : List Op) : DB := ops.foldl applyOp db

/-- The identifying and immutable projection of a stored message: everything
except the two mutable flags. -/
def msgCore (m : DMessage) : Int × Int × Int × Txt :=
  (m.id, m.chat_id, m.user_id, m.text)

/-- The entries the search builds from original message texts (the first
loop of bot.py lines 288-294). -/
def originalEntries (db : DB) (chat_id : Int) (hashtag : Txt) : List SearchEntry :=
  (db.messages.filter (fun m => m.chat_id == chat_id && likeContains hashtag m.text)).map
    (fun m => { text := m.text, author := authorOf db m.user_id })

/-- The entries the search builds from edit-version texts (the second loop
of bot.py lines 296-303). -/
def versionEntries (db : DB) (chat_id : Int) (hashtag : Txt) : List SearchEntry :=
  (db.versions.filter (fun v =>
      db.messages.any (fun m => m.id == v.message_id && m.chat_id == chat_id)
      && likeContains hashtag v.text)).map
    (fun v => { text := v.text, author := versionAuthor db v })

/-- Modelled from the claim's words, for comparison with the code: a
markDeleted that locates the target with the same `(chatId, authorId,
messageId)` lookup recordEdit uses. -/
def markDeletedClaimed (db : DB) (chat_id user_id message_id : Int) : DB :=
  match db.messages.find? (editKey chat_id user_id message_id) with
  | none => db
  | some _ =>
      { db with
        messages := updateFirst (editKey chat_id user_id message_id)
          (fun x => { x with is_deleted := true }) db.messages }

/-- Two messages (ids 1 and 2) by author 1 in chat 1. -/
def exDbC4 : DB :=
  ⟨[], [{ id := 1, chat_id := 1, user_id := 1, text := [104] },
        { id := 2, chat_id := 1, user_id := 1, text := [105] }], []⟩

/-- A store holding user 1 and the message with id 5 written by user 1. -/
def exDbC3 : DB :=
  ⟨[{ user_id := 1, username := some [97], full_name := none,
      first_name := none, last_name := none }],
   [{ id := 5, chat_id := 1, user_id := 1, text := [104] }], []⟩

/-- A never-seen author (platform id 2). -/
def exUserC3 : IncomingUser := ⟨2, some [98], none, none, none⟩

/-- One recordEdit event's payload, as bot.py's `handle_edited_message`
passes it to `update_message`. -/
structure EditCall where
  chat_id : Int
  user_id : Int
  message_id : Int
  new_text : Txt
  edited_at : Int

/-- The state after a sequence of recordEdit events. -/
def applyEdits (db : DB) (calls : List EditCall) : DB :=
  calls.foldl
    (fun d k => update_message d k.chat_id k.user_id k.message_id k.new_text k.edited_at)
    db

/-- The uniqueness constraint on the users table: one row per platform
identifier (`user_id = Column(BigInteger, unique=True)`). -/
abbrev UWF (db : DB) : Prop := (db.users.map (fun x => x.user_id)).Nodup

/-- The user rows stored for one platform identifier. -/
def usersFor (db : DB) (i : Int) : List DUser :=
  db.users.filter (fun x => x.user_id == i)

/-- The primary-key constraint on the messages table: stored message ids
are unique. -/
abbrev MWF (db : DB) : Prop := (db.messages.map (fun m => m.id)).Nodup

/-- The spec's result shape (section 4.3) over an arbitrary text matcher:
one entry per Message in the chat whose original text matches, plus one
entry per MessageVersion whose owning Message (the one its foreign key
references) lies in the chat and whose text matches; every author is
resolved from the owning Message's User, preferring the username and
falling back to the raw platform identifier. -/
def searchUnion (sub : Txt → Bool) (db : DB) (chat_id : Int) :
    List SearchEntry :=
  (db.messages.filter (fun m => m.chat_id == chat_id && sub m.text)).map
    (fun m => ({ text := m.text, author := authorOf db m.user_id } : SearchEntry))
  ++ db.versions.filterMap (fun v =>
      (match db.messages.find? (fun m => m.id == v.message_id) with
       | some owner =>
           if owner.chat_id == chat_id && sub v.text
           then some ({ text := v.text, author := authorOf db owner.user_id } : SearchEntry)
           else none
       | none => none : Option SearchEntry))

/-- Modelled from the spec's words (section 4.3), for comparison with the
code: the union shape above with "whose text contains `hashtag` as a
substring" read literally. -/
def searchByHashtagSpec (db : DB) (chat_id : Int) (hashtag : Txt) :
    List SearchEntry :=
  searchUnion (isSub hashtag) db chat_id

/-- One user and one message whose text is "#axb" (codes 35 97 120 98) in
chat 1: a store on which the wildcard hashtag "#a%b" (codes 35 97 37 98)
LIKE-matches the text that does not contain it as a substring. -/
def exDbC5x : DB :=
  ⟨[{ user_id := 1, username := some [97], full_name := none,
      first_name := none, last_name := none }],
   [{ id := 1, chat_id := 1, user_id := 1, text := [35, 97, 120, 98] }], []⟩

/-- Two users (one without a username), two messages in chat 1, and one
edit version whose text carries the hashtag. -/
def exDbC5 : DB :=
  ⟨[{ user_id := 1, username := some [97], full_name := none,
      first_name := none, last_name := none },
    { user_id := 2, username := none, full_name := none,
      first_name := none, last_name := none }],
   [{ id := 10, chat_id := 1, user_id := 1, text := [35, 120] },
    { id := 11, chat_id := 1, user_id := 2, text := [104], is_edited := true }],
   [{ message_id := 11, text := [35, 120], edited_at := 5 }]⟩

/-! ### Helper lemmas about `updateFirst` -/

theorem updateFirst_map {α β : Type} (p : α → Bool) (g : α → α) (f : α → β)
    (hf : ∀ x, f (g x) = f x) (l : List α) :
    (updateFirst p g l).map f = l.map f := by
  induction l with
  | nil => rfl
  | cons x xs ih =>
    by_cases hp : p x = true
    · simp [updateFirst, hp, hf]
    · simp [updateFirst, hp, ih]

theorem updateFirst_find?_self {α : Type} (p : α → Bool) (g : α → α)
    (hp : ∀ x, p (g x) = p x) (l : List α) :
    (updateFirst p g l).find? p = (l.find? p).map g := by
  induction l with
  | nil => rfl
  | cons x xs ih =>
    by_cases h : p x = true
    · rw [updateFirst, if_pos h, List.find?_cons_of_pos _ ((hp x).trans h),
        List.find?_cons_of_pos _ h]
      rfl
    · rw [updateFirst, if_neg h, List.find?_cons_of_neg _ h,
        List.find?_cons_of_neg _ h, ih]

theorem updateFirst_idem {α : Type} (p : α → Bool) (g : α → α)
    (hp : ∀ x, p (g x) = p x) (hg : ∀ x, g (g x) = g x) (l : List α) :
    updateFirst p g (updateFirst p g l) = updateFirst p g l := by
  induction l with
  | nil => rfl
  | cons x xs ih =>
    by_cases h : p x = true
    · rw [updateFirst, if_pos h, updateFirst, if_pos ((hp x).trans h), hg]
    · rw [updateFirst, if_neg h, updateFirst, if_neg h, ih]

theorem updateFirst_find?_other {α : Type} (p q : α → Bool) (g : α → α)
    (hq : ∀ x, q (g x) = q x) (l : List α) :
    ((updateFirst p g l).find? q).isSome = (l.find? q).isSome := by
  induction l with
  | nil => rfl
  | cons x xs ih =>
    by_cases h : p x = true
    · by_cases h2 : q x = true
      · rw [updateFirst, if_pos h, List.find?_cons_of_pos _ ((hq x).trans h2),
          List.find?_cons_of_pos _ h2]
        rfl
      · rw [updateFirst, if_pos h,
          List.find?_cons_of_neg _ (fun hc => h2 ((hq x) ▸ hc)),
          List.find?_cons_of_neg _ h2]
    · by_cases h2 : q x = true
      · rw [updateFirst, if_neg h, List.find?_cons_of_pos _ h2,
          List.find?_cons_of_pos _ h2]
      · rw [updateFirst, if_neg h, List.find?_cons_of_neg _ h2,
          List.find?_cons_of_neg _ h2, ih]

theorem updateFirst_length {α : Type} (p : α → Bool) (g : α → α) (l : List α) :
    (updateFirst p g l).length = l.length := by
  induction l with
  | nil => rfl
  | cons x xs ih =>
    by_cases h : p x = true
    · simp [updateFirst, h]
    · simp [updateFirst, h, ih]

/-- When a projection is pairwise distinct over the list and the filter
only accepts one projection value, the filter returns exactly the element
`find?` returns. -/
theorem filter_eq_of_find?_nodup {α β : Type} (f : α → β) (p : α → Bool)
    (hp : ∀ x y, p x = true → p y = true → f x = f y) (l : List α)
    (hnd : (l.map f).Nodup) (ex : α) (h : l.find? p = some ex) :
    l.filter p = [ex] := by
  induction l with
  | nil => cases h
  | cons a as ih =>
    rw [List.map_cons, List.nodup_cons] at hnd
    by_cases ha : p a = true
    · rw [List.find?_cons_of_pos _ ha] at h
      have hae : a = ex := Option.some.inj h
      subst hae
      have hnil : as.filter p = [] :=
        List.filter_eq_nil_iff.mpr
          (fun x hx hpx => hnd.1 (List.mem_map.mpr ⟨x, hx, hp x a hpx ha⟩))
      rw [List.filter_cons, if_pos ha, hnil]
    · rw [List.find?_cons_of_neg _ ha] at h
      rw [List.filter_cons, if_neg ha]
      exact ih hnd.2 h

/-! ### Frame lemmas for the store operations -/

theorem gocu_messages (db : DB) (u : IncomingUser) :
    (get_or_create_user db u).messages = db.messages := rfl

theorem gocu_versions (db : DB) (u : IncomingUser) :
    (get_or_create_user db u).versions = db.versions := rfl

theorem um_users (db : DB) (c uid mid : Int) (t : Txt) (ts : Int) :
    (update_message db c uid mid t ts).users = db.users := by
  unfold update_message
  cases db.messages.find? (editKey c uid mid) <;> rfl

theorem mmd_users (db : DB) (c uid : Int) :
    (mark_message_as_deleted db c uid).users = db.users := by
  unfold mark_message_as_deleted
  cases db.messages.find? (delKey c uid) <;> rfl

theorem mmd_versions (db : DB) (c uid : Int) :
    (mark_message_as_deleted db c uid).versions = db.versions := by
  unfold mark_message_as_deleted
  cases db.messages.find? (delKey c uid) <;> rfl

theorem msgCore_edit (x : DMessage) :
    msgCore { x with is_edited := true } = msgCore x := rfl

theorem msgCore_del (x : DMessage) :
    msgCore { x with is_deleted := true } = msgCore x := rfl

theorem um_messages_core (db : DB) (c uid mid : Int) (t : Txt) (ts : Int) :
    (update_message db c uid mid t ts).messages.map msgCore =
      db.messages.map msgCore := by
  unfold update_message
  cases db.messages.find? (editKey c uid mid) with
  | none => rfl
  | some m => exact updateFirst_map _ _ _ msgCore_edit _

theorem mmd_messages_core (db : DB) (c uid : Int) :
    (mark_message_as_deleted db c uid).messages.map msgCore =
      db.messages.map msgCore := by
  unfold mark_message_as_deleted
  cases db.messages.find? (delKey c uid) with
  | none => rfl
  | some m => exact updateFirst_map _ _ _ msgCore_del _

theorem updateFirst_of_none {α : Type} (p : α → Bool) (g : α → α)
    (l : List α) (h : ∀ x ∈ l, ¬ p x = true) : updateFirst p g l = l := by
  induction l with
  | nil => rfl
  | cons x xs ih =>
    rw [updateFirst, if_neg (h x (List.mem_cons_self x xs)),
      ih (fun y hy => h y (List.mem_cons_of_mem x hy))]

theorem DB_eq_of_fields (a b : DB) (h1 : a.users = b.users)
    (h2 : a.messages = b.messages) (h3 : a.versions = b.versions) : a = b := by
  cases a; cases b; simp_all

theorem mmd_messages_eq (db : DB) (c uid : Int) :
    (mark_message_as_deleted db c uid).messages =
      updateFirst (delKey c uid) (fun x => { x with is_deleted := true })
        db.messages := by
  unfold mark_message_as_deleted
  cases h : db.messages.find? (delKey c uid) with
  | none => exact (updateFirst_of_none _ _ _ (List.find?_eq_none.mp h)).symm
  | some m => rfl

theorem mmd_find? (db : DB) (c uid : Int) :
    (mark_message_as_deleted db c uid).messages.find? (delKey c uid) =
      (db.messages.find? (delKey c uid)).map
        (fun x => { x with is_deleted := true }) := by
  rw [mmd_messages_eq]
  exact updateFirst_find?_self (delKey c uid)
    (fun x => { x with is_deleted := true }) (fun x => rfl) db.messages

theorem um_messages_eq (db : DB) (c uid mid : Int) (t : Txt) (ts : Int) :
    (update_message db c uid mid t ts).messages =
      updateFirst (editKey c uid mid) (fun x => { x with is_edited := true })
        db.messages := by
  unfold update_message
  cases h : db.messages.find? (editKey c uid mid) with
  | none => exact (updateFirst_of_none _ _ _ (List.find?_eq_none.mp h)).symm
  | some m => rfl

theorem um_find? (db : DB) (c uid mid : Int) (t : Txt) (ts : Int) :
    (update_message db c uid mid t ts).messages.find? (editKey c uid mid) =
      (db.messages.find? (editKey c uid mid)).map
        (fun x => { x with is_edited := true }) := by
  rw [um_messages_eq]
  exact updateFirst_find?_self (editKey c uid mid)
    (fun x => { x with is_edited := true }) (fun x => rfl) db.messages

theorem um_versions_eq (db : DB) (c uid mid : Int) (t : Txt) (ts : Int) :
    (update_message db c uid mid t ts).versions =
      db.versions ++
        (match db.messages.find? (editKey c uid mid) with
         | some m => [{ message_id := m.id, text := t, edited_at := ts }]
         | none => []) := by
  unfold update_message
  cases h : db.messages.find? (editKey c uid mid) with
  | none => rw [List.append_nil]
  | some m => rfl

/-- An edit event's lookup succeeds on the updated store exactly when it
succeeds on the store before any edit: `update_message` never changes the
`(chat, author, id)` key of a stored message. -/
theorem um_found_invariant (db : DB) (a b d : Int) (t : Txt) (ts : Int)
    (c uid mid : Int) :
    ((update_message db a b d t ts).messages.find? (editKey c uid mid)).isSome =
      (db.messages.find? (editKey c uid mid)).isSome := by
  rw [um_messages_eq]
  exact updateFirst_find?_other (editKey a b d) (editKey c uid mid)
    (fun x => { x with is_edited := true }) (fun x => rfl) db.messages

theorem applyEdits_versions_length (db : DB) (calls : List EditCall) :
    (applyEdits db calls).versions.length = db.versions.length +
      calls.countP (fun k =>
        (db.messages.find? (editKey k.chat_id k.user_id k.message_id)).isSome) := by
  induction calls generalizing db with
  | nil => rfl
  | cons k ks ih =>
    have hstep : applyEdits db (k :: ks) =
        applyEdits
          (update_message db k.chat_id k.user_id k.message_id k.new_text k.edited_at)
          ks := rfl
    rw [hstep, ih]
    have hpred : (fun j : EditCall =>
          ((update_message db k.chat_id k.user_id k.message_id k.new_text
              k.edited_at).messages.find?
            (editKey j.chat_id j.user_id j.message_id)).isSome)
        = (fun j : EditCall =>
          (db.messages.find? (editKey j.chat_id j.user_id j.message_id)).isSome) := by
      funext j
      exact um_found_invariant db k.chat_id k.user_id k.message_id k.new_text
        k.edited_at j.chat_id j.user_id j.message_id
    rw [hpred, List.countP_cons, um_versions_eq]
    cases h : db.messages.find? (editKey k.chat_id k.user_id k.message_id) with
    | none => simp
    | some m => simp [List.length_append]; omega

/-- The fresh row `get_or_create_user` inserts for a never-seen identifier. -/
def newUserRow (u : IncomingUser) : DUser :=
  { user_id := u.id, username := u.username, full_name := u.full_name,
    first_name := u.first_name, last_name := u.last_name }

theorem gocu_users_none (db : DB) (u : IncomingUser)
    (h : db.users.find? (fun x => x.user_id == u.id) = none) :
    (get_or_create_user db u).users = db.users ++ [newUserRow u] := by
  show (match db.users.find? (fun x => x.user_id == u.id) with
        | none => db.users ++ [newUserRow u]
        | some ex =>
            if truthy u.username && ex.username != u.username then
              updateFirst (fun x => x.user_id == u.id)
                (fun x => { x with username := u.username }) db.users
            else db.users) = db.users ++ [newUserRow u]
  rw [h]

theorem gocu_users_some (db : DB) (u : IncomingUser) (ex : DUser)
    (h : db.users.find? (fun x => x.user_id == u.id) = some ex) :
    (get_or_create_user db u).users =
      if truthy u.username && ex.username != u.username then
        updateFirst (fun x => x.user_id == u.id)
          (fun x => { x with username := u.username }) db.users
      else db.users := by
  show (match db.users.find? (fun x => x.user_id == u.id) with
        | none => db.users ++ [newUserRow u]
        | some ex =>
            if truthy u.username && ex.username != u.username then
              updateFirst (fun x => x.user_id == u.id)
                (fun x => { x with username := u.username }) db.users
            else db.users) = _
  rw [h]

/-- `get_or_create_user` preserves the uniqueness of platform identifiers:
it inserts only when no row with the identifier exists, and an update never
changes a `user_id`. -/
theorem gocu_UWF (db : DB) (u : IncomingUser) (hwf : UWF db) :
    UWF (get_or_create_user db u) := by
  unfold UWF
  cases h : db.users.find? (fun x => x.user_id == u.id) with
  | none =>
    rw [gocu_users_none db u h, List.map_append]
    refine List.Nodup.append hwf (List.nodup_singleton _) ?_
    intro a ha hb
    rw [List.mem_map] at ha
    obtain ⟨x, hx, hxa⟩ := ha
    have hau : a = u.id := by
      cases hb with
      | head => rfl
      | tail _ htl => cases htl
    exact (List.find?_eq_none.mp h x hx) (by rw [beq_iff_eq, hxa, hau])
  | some ex =>
    by_cases hcond : (truthy u.username && ex.username != u.username) = true
    · rw [gocu_users_some db u ex h, if_pos hcond,
        updateFirst_map (fun x => x.user_id == u.id)
          (fun x => { x with username := u.username }) (fun x => x.user_id)
          (fun x => rfl) db.users]
      exact hwf
    · rw [gocu_users_some db u ex h, if_neg hcond]
      exact hwf

/-- The usernames stored for a never-seen identifier after one upsert: just
the freshly inserted row's. -/
theorem gocu_usersFor_none (db : DB) (u : IncomingUser)
    (h : db.users.find? (fun x => x.user_id == u.id) = none) :
    (usersFor (get_or_create_user db u) u.id).map (fun x => x.username) =
      [u.username] := by
  unfold usersFor
  have h1 : db.users.filter (fun x => x.user_id == u.id) = [] :=
    List.filter_eq_nil_iff.mpr (List.find?_eq_none.mp h)
  have h2 : ((newUserRow u).user_id == u.id) = true := beq_self_eq_true u.id
  rw [gocu_users_none db u h, List.filter_append, h1, List.nil_append,
    List.filter_cons, if_pos h2]
  rfl

/-- The usernames stored for an already-seen identifier after one upsert,
on a store satisfying the uniqueness constraint. -/
theorem gocu_usersFor_some (db : DB) (u : IncomingUser) (ex : DUser)
    (hwf : UWF db)
    (h : db.users.find? (fun x => x.user_id == u.id) = some ex) :
    (usersFor (get_or_create_user db u) u.id).map (fun x => x.username) =
      [if truthy u.username && ex.username != u.username
       then u.username else ex.username] := by
  have hpersist : ∀ x y : DUser, (x.user_id == u.id) = true →
      (y.user_id == u.id) = true → x.user_id = y.user_id :=
    fun x y hx hy => (eq_of_beq hx).trans (eq_of_beq hy).symm
  unfold usersFor
  by_cases hcond : (truthy u.username && ex.username != u.username) = true
  · rw [if_pos hcond, gocu_users_some db u ex h, if_pos hcond]
    have hnd2 : ((updateFirst (fun x => x.user_id == u.id)
        (fun x => { x with username := u.username }) db.users).map
        (fun x => x.user_id)).Nodup := by
      rw [updateFirst_map (fun x => x.user_id == u.id)
        (fun x => { x with username := u.username }) (fun x => x.user_id)
        (fun x => rfl) db.users]
      exact hwf
    have hf2 : (updateFirst (fun x => x.user_id == u.id)
        (fun x => { x with username := u.username }) db.users).find?
        (fun x => x.user_id == u.id) = some { ex with username := u.username } := by
      rw [updateFirst_find?_self (fun x => x.user_id == u.id)
        (fun x => { x with username := u.username }) (fun x => rfl) db.users, h]
      rfl
    rw [filter_eq_of_find?_nodup (fun x : DUser => x.user_id)
      (fun x : DUser => x.user_id == u.id) hpersist _ hnd2 _ hf2]
    rfl
  · rw [if_neg hcond, gocu_users_some db u ex h, if_neg hcond,
      filter_eq_of_find?_nodup (fun x : DUser => x.user_id)
        (fun x : DUser => x.user_id == u.id) hpersist db.users
        (show (db.users.map (fun x : DUser => x.user_id)).Nodup from hwf) ex h]
    rfl

/-- A second upsert whose supplied username is non-empty always leaves that
username stored, whatever the row held before. -/
theorem second_upsert_username (r : DUser) (u2 : IncomingUser) (s : Txt)
    (husn : u2.username = some s) (hs : s ≠ []) :
    (if truthy u2.username && r.username != u2.username
     then u2.username else r.username) = some s := by
  have hT : truthy u2.username = true := by
    rw [husn]
    cases s with
    | nil => exact absurd rfl hs
    | cons a as => rfl
  rw [hT, Bool.true_and]
  cases hc : r.username != u2.username with
  | true => simpa using husn
  | false =>
    have hr : r.username = u2.username := bne_eq_false_iff_eq.mp hc
    simpa [hr] using husn

/-- Filtering then mapping coincides with a filterMap whose function agrees
pointwise with the guarded map. -/
theorem filter_map_eq_filterMap {α β : Type} (p : α → Bool) (g : α → β)
    (f : α → Option β) (l : List α)
    (H : ∀ x ∈ l, f x = if p x = true then some (g x) else none) :
    (l.filter p).map g = l.filterMap f := by
  induction l with
  | nil => rfl
  | cons a as ih =>
    have ha := H a (List.mem_cons_self a as)
    have ih2 := ih (fun x hx => H x (List.mem_cons_of_mem a hx))
    rw [List.filter_cons, List.filterMap_cons, ha]
    cases hp : p a with
    | true => simp [ih2]
    | false => simp [ih2]

theorem suffixes_any_isEmpty (t : Txt) :
    (suffixes t).any (fun x => x.isEmpty) = true := by
  induction t with
  | nil => rfl
  | cons b bs ih => simp [suffixes, ih]

/-- A wildcard-free pattern followed by `%` LIKE-matches a string exactly
when the pattern is literally its prefix. -/
theorem likeMatch_append_pct (pat : Txt) :
    ∀ t : Txt, 37 ∉ pat → 95 ∉ pat →
      likeMatch (pat ++ [37]) t = isPre pat t := by
  induction pat with
  | nil =>
    intro t _ _
    show (suffixes t).any (fun x => likeMatch [] x) = true
    exact suffixes_any_isEmpty t
  | cons c ps ih =>
    intro t h37 h95
    have h37p : 37 ∉ ps := fun hm => h37 (List.mem_cons_of_mem c hm)
    have h95p : 95 ∉ ps := fun hm => h95 (List.mem_cons_of_mem c hm)
    have hc37 : (c == 37) = false := by
      rw [beq_eq_false_iff_ne]
      intro hcc
      exact h37 (by rw [← hcc]; exact List.mem_cons_self c ps)
    have hc95 : (c == 95) = false := by
      rw [beq_eq_false_iff_ne]
      intro hcc
      exact h95 (by rw [← hcc]; exact List.mem_cons_self c ps)
    cases t with
    | nil => simp [likeMatch, isPre, hc37]
    | cons d t2 => simp [likeMatch, isPre, hc37, hc95, ih t2 h37p h95p]

theorem suffixes_any_isPre (pat s : Txt) :
    (suffixes s).any (fun t => isPre pat t) = isSub pat s := by
  induction s with
  | nil =>
    show (isPre pat [] || false) = pat.isEmpty
    cases pat <;> rfl
  | cons b bs ih =>
    show (isPre pat (b :: bs) || (suffixes bs).any (fun t => isPre pat t)) =
      isSub pat (b :: bs)
    rw [ih]
    rfl

/-- On a hashtag free of SQL wildcard characters, the unescaped LIKE filter
is exactly literal substring containment. -/
theorem likeContains_eq_isSub (pat : Txt) (h37 : 37 ∉ pat) (h95 : 95 ∉ pat)
    (s : Txt) : likeContains pat s = isSub pat s := by
  show (suffixes s).any (fun t => likeMatch (pat ++ [37]) t) = isSub pat s
  rw [show (fun t => likeMatch (pat ++ [37]) t) = (fun t => isPre pat t) from
      funext (fun t => likeMatch_append_pct pat t h37 h95),
    suffixes_any_isPre]

/-- On a store whose message ids are unique, the code's join condition for a
version — some message with its id lies in the chat — agrees with the
spec's reading — the owning message lies in the chat — and the code's
author (fetched through the first id match) is the owner's author; the text
matcher's verdict `sub` is arbitrary. -/
theorem version_case (db : DB) (c : Int) (hwf : MWF db)
    (v : DVersion) (sub : Bool) :
    (match db.messages.find? (fun m => m.id == v.message_id) with
     | some owner =>
         if owner.chat_id == c && sub
         then some ({ text := v.text, author := authorOf db owner.user_id } : SearchEntry)
         else none
     | none => none) =
      if (db.messages.any (fun m => m.id == v.message_id && m.chat_id == c)
          && sub) = true
      then some ({ text := v.text, author := versionAuthor db v } : SearchEntry)
      else none := by
  cases hf : db.messages.find? (fun m => m.id == v.message_id) with
  | none =>
    have hnone := List.find?_eq_none.mp hf
    cases hany : db.messages.any (fun m => m.id == v.message_id && m.chat_id == c) with
    | false => simp
    | true =>
      obtain ⟨m, hm, hmm⟩ := List.any_eq_true.mp hany
      rw [Bool.and_eq_true] at hmm
      exact absurd hmm.1 (hnone m hm)
  | some owner =>
    have hva : versionAuthor db v = authorOf db owner.user_id := by
      unfold versionAuthor
      rw [hf]
    cases sub with
    | false => simp
    | true =>
      cases hchat : owner.chat_id == c with
      | true =>
        have hany : db.messages.any
            (fun m => m.id == v.message_id && m.chat_id == c) = true :=
          List.any_eq_true.mpr ⟨owner, List.mem_of_find?_eq_some hf, by
            have hpo := List.find?_some hf
            rw [Bool.and_eq_true]
            exact ⟨hpo, hchat⟩⟩
        simp [hchat, hany, hva]
      | false =>
        have hany : db.messages.any
            (fun m => m.id == v.message_id && m.chat_id == c) = false := by
          cases hany : db.messages.any
              (fun m => m.id == v.message_id && m.chat_id == c) with
          | false => rfl
          | true =>
            obtain ⟨m, hm, hmm⟩ := List.any_eq_true.mp hany
            rw [Bool.and_eq_true] at hmm
            have hpo := List.find?_some hf
            have hmo : m = owner :=
              List.inj_on_of_nodup_map hwf hm (List.mem_of_find?_eq_some hf)
                ((eq_of_beq hmm.1).trans (eq_of_beq hpo).symm)
            rw [hmo, hchat] at hmm
            exact absurd hmm.2 (by decide)
        simp [hchat, hany]

/-- For any matcher, the code's filter-then-map result shape equals the
spec's union shape, on a store with unique message ids. -/
theorem search_union_eq (db : DB) (c : Int) (sub : Txt → Bool)
    (hwf : MWF db) :
    (db.messages.filter (fun m => m.chat_id == c && sub m.text)).map
      (fun m => ({ text := m.text, author := authorOf db m.user_id } : SearchEntry))
    ++ (db.versions.filter (fun v =>
          db.messages.any (fun m => m.id == v.message_id && m.chat_id == c)
          && sub v.text)).map
        (fun v => ({ text := v.text, author := versionAuthor db v } : SearchEntry)) =
      searchUnion sub db c := by
  simp only [searchUnion]
  rw [filter_map_eq_filterMap
    (fun v => db.messages.any (fun m => m.id == v.message_id && m.chat_id == c)
      && sub v.text)
    (fun v => ({ text := v.text, author := versionAuthor db v } : SearchEntry))
    (fun v =>
      (match db.messages.find? (fun m => m.id == v.message_id) with
       | some owner =>
           if owner.chat_id == c && sub v.text
           then some ({ text := v.text, author := authorOf db owner.user_id } : SearchEntry)
           else none
       | none => none : Option SearchEntry))
    db.versions
    (fun v _ => version_case db c hwf v (sub v.text))]

/-- Per-event step: the `(id, chat, author, text)` projection of the stored
message rows is only ever extended, never rewritten. -/
theorem applyOp_core (db : DB) (o : Op) :
    ∃ suf, (applyOp db o).messages.map msgCore =
      db.messages.map msgCore ++ suf := by
  cases o with
  | newMsg c u t mid =>
    simp only [applyOp, save_message_tx]
    by_cases h : (get_or_create_user db u).messages.any (fun m => m.id == mid) = true
    · rw [if_pos h]
      refine ⟨[], ?_⟩
      rw [List.append_nil]
      rfl
    · rw [if_neg h]
      refine ⟨[msgCore ({ id := mid, chat_id := c, user_id := u.id, text := t } : DMessage)], ?_⟩
      show ((get_or_create_user db u).messages ++
          [({ id := mid, chat_id := c, user_id := u.id, text := t } : DMessage)]).map msgCore =
        db.messages.map msgCore ++
          [msgCore ({ id := mid, chat_id := c, user_id := u.id, text := t } : DMessage)]
      rw [List.map_append, gocu_messages]
      rfl
  | edit c uid mid t ts =>
    exact ⟨[], by rw [applyOp, um_messages_core, List.append_nil]⟩
  | del c uid =>
    exact ⟨[], by rw [applyOp, mmd_messages_core, List.append_nil]⟩

/-- C1.  For every message and every sequence of recordNewMessage,
recordEdit and markDeleted events, the original `text` of a stored Message
is never altered after creation: after any event sequence, the rows'
`(id, chat, author, text)` projections are exactly what they were before,
with projections of newly created rows appended — no operation other than
message creation writes to `Message.text`. -/
theorem C1_original_text_immutable :
    ∀ (db : DB) (ops : List Op),
      ∃ suf, (applyOps db ops).messages.map msgCore =
        db.messages.map msgCore ++ suf := by
  intro db ops
  induction ops generalizing db with
  | nil => exact ⟨[], by simp [applyOps]⟩
  | cons o os ih =>
    obtain ⟨s1, h1⟩ := applyOp_core db o
    obtain ⟨s2, h2⟩ := ih (applyOp db o)
    refine ⟨s1 ++ s2, ?_⟩
    rw [show applyOps db (o :: os) = applyOps (applyOp db o) os from rfl,
      h2, h1, List.append_assoc]

/-- C8.  Replaying a message id already recorded for the chat makes
recordNewMessage fail with the duplicate-message error (the primary-key
collision surfaced by the commit), and the stored message rows — the
previously stored original text among them — are exactly what they were. -/
theorem C8_duplicate_insert_rejected :
    ∀ (db : DB) (c : Int) (u : IncomingUser) (t : Txt) (mid : Int),
      (∃ m ∈ db.messages, m.id = mid ∧ m.chat_id = c) →
      ∃ s, save_message_tx db c u t mid = .fail .duplicateMessage s ∧
        s.messages = db.messages := by
  intro db c u t mid hdup
  obtain ⟨m, hm, hid, _⟩ := hdup
  refine ⟨get_or_create_user db u, ?_, gocu_messages db u⟩
  have hany : (get_or_create_user db u).messages.any (fun x => x.id == mid) = true := by
    rw [gocu_messages]
    exact List.any_eq_true.mpr ⟨m, hm, by simp [hid]⟩
  simp [save_message_tx, hany]

theorem C8_duplicate_insert_rejected_witness :
    ∃ s, save_message_tx ⟨[], [{ id := 5, chat_id := 1, user_id := 1, text := [104] }], []⟩
        1 ⟨2, none, none, none, none⟩ [104] 5 = .fail .duplicateMessage s ∧
      s.messages = (⟨[], [{ id := 5, chat_id := 1, user_id := 1, text := [104] }], []⟩ : DB).messages :=
  C8_duplicate_insert_rejected _ 1 ⟨2, none, none, none, none⟩ [104] 5
    ⟨{ id := 5, chat_id := 1, user_id := 1, text := [104] }, by decide⟩

/-- C9.  markDeleted is idempotent: a second call with the same arguments
is a no-op — it leaves the whole persisted state (flags, version list,
users) exactly as after the first call — and when the lookup finds a
message, the first call leaves it with `is_deleted = true`. -/
theorem C9_markDeleted_idempotent :
    ∀ (db : DB) (c uid : Int),
      mark_message_as_deleted (mark_message_as_deleted db c uid) c uid =
        mark_message_as_deleted db c uid ∧
      ∀ m, db.messages.find? (delKey c uid) = some m →
        (mark_message_as_deleted db c uid).messages.find? (delKey c uid) =
          some { m with is_deleted := true } := by
  intro db c uid
  constructor
  · apply DB_eq_of_fields
    · rw [mmd_users, mmd_users]
    · rw [mmd_messages_eq, mmd_messages_eq]
      exact updateFirst_idem (delKey c uid)
        (fun x => { x with is_deleted := true })
        (fun x => rfl) (fun x => rfl) db.messages
    · rw [mmd_versions, mmd_versions]
  · intro m hm
    rw [mmd_find?, hm]
    rfl

/-- C10.  The hashtag search result is always the concatenation of all
matches on original message texts followed by all matches on edit-version
texts: every original-text entry precedes every version entry. -/
theorem C10_originals_precede_versions :
    ∀ (db : DB) (c : Int) (h : Txt),
      find_messages_by_hashtag db c h =
        originalEntries db c h ++ versionEntries db c h :=
  fun _ _ _ => rfl

/-- C2.  A recordEdit call that finds its message sets `is_edited = true`
and appends exactly one MessageVersion carrying the supplied text and
timestamp (with no condition on the timestamp, so a regressing `editedAt`
is stored as-is), touching nothing else; a call that finds no matching
message changes no state and raises no error; and over any sequence of
recordEdit calls the version-table growth equals the number of calls whose
lookup succeeds. -/
theorem C2_recordEdit_appends_exactly_one :
    ∀ (db : DB) (c uid mid : Int) (t : Txt) (ts : Int),
      (match db.messages.find? (editKey c uid mid) with
       | some m =>
           (update_message db c uid mid t ts).versions =
             db.versions ++ [{ message_id := m.id, text := t, edited_at := ts }] ∧
           (update_message db c uid mid t ts).messages.find? (editKey c uid mid) =
             some { m with is_edited := true } ∧
           (update_message db c uid mid t ts).users = db.users
       | none => update_message db c uid mid t ts = db) ∧
      ∀ (calls : List EditCall),
        (applyEdits db calls).versions.length = db.versions.length +
          calls.countP (fun k =>
            (db.messages.find? (editKey k.chat_id k.user_id k.message_id)).isSome) := by
  intro db c uid mid t ts
  constructor
  · cases h : db.messages.find? (editKey c uid mid) with
    | none =>
      show update_message db c uid mid t ts = db
      unfold update_message
      rw [h]
    | some m =>
      refine ⟨?_, ?_, um_users db c uid mid t ts⟩
      · rw [um_versions_eq, h]
      · rw [um_find?, h]
        rfl
  · exact applyEdits_versions_length db

/-- C3 counterexample.  Replaying message id 5 under a brand-new author:
the insert fails, yet the state persisted after the failure carries the new
user row — the user upsert committed inside the failed recordNewMessage
(database.py line 105) survives, so the state is not what it was before the
call. -/
theorem C3_counterexample :
    save_message_tx exDbC3 1 exUserC3 [104] 5 =
      .fail .duplicateMessage
        ⟨[{ user_id := 1, username := some [97], full_name := none,
            first_name := none, last_name := none },
          { user_id := 2, username := some [98], full_name := none,
            first_name := none, last_name := none }],
         [{ id := 5, chat_id := 1, user_id := 1, text := [104] }], []⟩ ∧
    (save_message_tx exDbC3 1 exUserC3 [104] 5).state ≠ exDbC3 := by
  decide

/-- C3 (amended).  A failing transactional operation rolls back to the last
commit inside the operation, not necessarily to the pre-call state: when
recordNewMessage fails on the message insert, the message table is exactly
what it was, but the persisted state is `get_or_create_user`'s result —
the user write that function committed itself before the insert survives
the rollback. -/
theorem C3_rollback_amended :
    ∀ (db : DB) (c : Int) (u : IncomingUser) (t : Txt) (mid : Int),
      (match save_message_tx db c u t mid with
       | .fail _ s => s = get_or_create_user db u ∧ s.messages = db.messages
       | .ok _ => True) := by
  intro db c u t mid
  simp only [save_message_tx]
  by_cases h : (get_or_create_user db u).messages.any (fun m => m.id == mid) = true
  · rw [if_pos h]
    exact ⟨rfl, gocu_messages db u⟩
  · rw [if_neg h]
    trivial

/-- C4 counterexample.  With two messages (ids 1 and 2) by the same author
in the same chat, the code's markDeleted — whose lookup takes no message id
— marks message 1, and differs from the recordEdit-style tuple lookup aimed
at message 2: the claimed lookup is not the one the code performs. -/
theorem C4_counterexample :
    mark_message_as_deleted exDbC4 1 1 ≠ markDeletedClaimed exDbC4 1 1 2 ∧
    (mark_message_as_deleted exDbC4 1 1).messages.map
      (fun m => (m.id, m.is_deleted)) = [(1, true), (2, false)] := by
  decide

/-- C4 (amended).  markDeleted locates the target by `(chatId, authorId)`
alone — the first stored message from that author in that chat; it takes no
message id, so its lookup is coarser than recordEdit's.  When a message is
found it is marked `is_deleted = true` (users and versions untouched);
otherwise the call is a no-op. -/
theorem C4_markDeleted_lookup_amended :
    ∀ (db : DB) (c uid : Int),
      (match db.messages.find? (delKey c uid) with
       | some m =>
           (mark_message_as_deleted db c uid).messages.find? (delKey c uid) =
             some { m with is_deleted := true } ∧
           (mark_message_as_deleted db c uid).users = db.users ∧
           (mark_message_as_deleted db c uid).versions = db.versions
       | none => mark_message_as_deleted db c uid = db) := by
  intro db c uid
  cases h : db.messages.find? (delKey c uid) with
  | none =>
    show mark_message_as_deleted db c uid = db
    unfold mark_message_as_deleted
    rw [h]
  | some m =>
    refine ⟨?_, mmd_users db c uid, mmd_versions db c uid⟩
    rw [mmd_find?, h]
    rfl

/-- C6 counterexample.  An infrastructure failure of the store yields the
same empty list as a reachable store with no matching rows: the exception
is swallowed inside the search (bot.py lines 310-314), no error reaches the
caller, and the two situations are indistinguishable. -/
theorem C6_counterexample :
    find_messages_by_hashtag_handled (.error .persistence) 1 [35] = [] ∧
    find_messages_by_hashtag_handled (.ok emptyDB) 1 [35] = [] := by
  decide

/-- C6 (amended).  The search returns an empty list when the store is
reachable and no row matches, and it also returns an empty list when an
infrastructure failure occurs — the caught exception is only logged, no
PersistenceError propagates — so the caller cannot distinguish "no matches"
from "search failed". -/
theorem C6_search_swallows_errors_amended :
    ∀ (e : DbError) (db : DB) (c : Int) (h : Txt),
      find_messages_by_hashtag_handled (.error e) c h = [] ∧
      find_messages_by_hashtag_handled (.ok db) c h =
        find_messages_by_hashtag db c h ∧
      (find_messages_by_hashtag db c h = [] ↔
        (∀ m ∈ db.messages, ¬(m.chat_id == c && likeContains h m.text) = true) ∧
        (∀ v ∈ db.versions,
          ¬(db.messages.any (fun m => m.id == v.message_id && m.chat_id == c)
            && likeContains h v.text) = true)) := by
  intro e db c h
  refine ⟨rfl, rfl, ?_⟩
  simp only [find_messages_by_hashtag]
  rw [List.append_eq_nil, List.map_eq_nil_iff, List.map_eq_nil_iff,
    List.filter_eq_nil_iff, List.filter_eq_nil_iff]

/-- C7 counterexample.  upsert(id, username = some "a") followed by
upsert(id, username = none) leaves the single row's username at "a", not at
the second call's value: the claim's consequent "leaves one User row with
username U2" fails when U2 is empty, because the overwrite is guarded by
truthiness of the supplied username. -/
theorem C7_counterexample :
    ((get_or_create_user
        (get_or_create_user emptyDB ⟨1, some [97], none, none, none⟩)
        ⟨1, none, none, none, none⟩).users.map (fun x => x.username)) =
      [some [97]] ∧
    (some [97] : Option Txt) ≠
      (⟨1, none, none, none, none⟩ : IncomingUser).username := by
  decide

/-- C7 (amended).  upsert creates a User with all supplied fields when none
exists for the identifier; when one exists it overwrites the stored
username if and only if the supplied username is non-empty and differs from
the stored value, leaving all other fields (and the row count) untouched;
consequently, when U2 is non-empty, upsert(id, U1) followed by
upsert(id, U2) leaves exactly one User row for id, with username U2 — when
U2 is empty the stored username is kept instead. -/
theorem C7_upsert_amended :
    ∀ (db : DB) (u : IncomingUser),
      (db.users.find? (fun x => x.user_id == u.id) = none →
        (get_or_create_user db u).users = db.users ++ [newUserRow u]) ∧
      (∀ ex, db.users.find? (fun x => x.user_id == u.id) = some ex →
        (get_or_create_user db u).users.find? (fun x => x.user_id == u.id) =
          some (if truthy u.username && ex.username != u.username
                then { ex with username := u.username } else ex) ∧
        (get_or_create_user db u).users.length = db.users.length) ∧
      (∀ (u1 u2 : IncomingUser) (s : Txt), UWF db → u2.id = u1.id →
        u2.username = some s → s ≠ [] →
        (usersFor (get_or_create_user (get_or_create_user db u1) u2) u2.id).map
          (fun x => x.username) = [some s]) := by
  intro db u
  refine ⟨gocu_users_none db u, fun ex h => ?_, ?_⟩
  · by_cases hcond : (truthy u.username && ex.username != u.username) = true
    · constructor
      · rw [if_pos hcond, gocu_users_some db u ex h, if_pos hcond,
          updateFirst_find?_self (fun x => x.user_id == u.id)
            (fun x => { x with username := u.username }) (fun x => rfl)
            db.users, h]
        rfl
      · rw [gocu_users_some db u ex h, if_pos hcond]
        exact updateFirst_length _ _ db.users
    · constructor
      · rw [if_neg hcond, gocu_users_some db u ex h, if_neg hcond]
        exact h
      · rw [gocu_users_some db u ex h, if_neg hcond]
  · intro u1 u2 s hwf hid husn hs
    have hwf1 := gocu_UWF db u1 hwf
    have hkey : (fun x : DUser => x.user_id == u2.id) =
        (fun x : DUser => x.user_id == u1.id) := by
      funext x
      rw [hid]
    cases h : db.users.find? (fun x => x.user_id == u1.id) with
    | none =>
      have hf1 : (get_or_create_user db u1).users.find?
          (fun x => x.user_id == u2.id) = some (newUserRow u1) := by
        rw [hkey, gocu_users_none db u1 h, List.find?_append, h, Option.none_or]
        exact List.find?_cons_of_pos _ (beq_self_eq_true u1.id)
      rw [gocu_usersFor_some (get_or_create_user db u1) u2 (newUserRow u1) hwf1 hf1]
      exact congrArg (fun o => [o])
        (second_upsert_username (newUserRow u1) u2 s husn hs)
    | some ex =>
      by_cases hcond : (truthy u1.username && ex.username != u1.username) = true
      · have hf1 : (get_or_create_user db u1).users.find?
            (fun x => x.user_id == u2.id) =
            some { ex with username := u1.username } := by
          rw [hkey, gocu_users_some db u1 ex h, if_pos hcond,
            updateFirst_find?_self (fun x => x.user_id == u1.id)
              (fun x => { x with username := u1.username }) (fun x => rfl)
              db.users, h]
          rfl
        rw [gocu_usersFor_some (get_or_create_user db u1) u2
          { ex with username := u1.username } hwf1 hf1]
        exact congrArg (fun o => [o])
          (second_upsert_username { ex with username := u1.username } u2 s husn hs)
      · have hf1 : (get_or_create_user db u1).users.find?
            (fun x => x.user_id == u2.id) = some ex := by
          rw [hkey, gocu_users_some db u1 ex h, if_neg hcond]
          exact h
        rw [gocu_usersFor_some (get_or_create_user db u1) u2 ex hwf1 hf1]
        exact congrArg (fun o => [o]) (second_upsert_username ex u2 s husn hs)

/-- C5 counterexample.  The hashtag is interpolated into the LIKE pattern
unescaped, so the wildcard hashtag "#a%b" (codes 35 97 37 98) makes the
search return the message "#axb" (codes 35 97 120 98), which does not
contain the hashtag as a substring — the substring-union the claim
describes is empty here while the program returns one entry, even on a
store satisfying the primary-key invariant. -/
theorem C5_counterexample :
    MWF exDbC5x ∧
    isSub [35, 97, 37, 98] [35, 97, 120, 98] = false ∧
    find_messages_by_hashtag exDbC5x 1 [35, 97, 37, 98] =
      [{ text := [35, 97, 120, 98], author := .uname [97] }] ∧
    searchByHashtagSpec exDbC5x 1 [35, 97, 37, 98] = [] ∧
    find_messages_by_hashtag exDbC5x 1 [35, 97, 37, 98] ≠
      searchByHashtagSpec exDbC5x 1 [35, 97, 37, 98] := by
  decide

/-- C5 (amended).  On a store whose message ids are unique (the primary-key
invariant), the search returns exactly the spec's union shape — one entry
per Message in the chat whose original text matches the unescaped SQL
pattern `%hashtag%` and one entry per MessageVersion whose owning Message
is in the chat and whose text matches it, separate entries even for the
same Message, each author resolved from the owning Message's User,
preferring the username and falling back to the raw platform identifier —
where, because the interpolation is unescaped, `%` and `_` inside the
hashtag keep their SQL wildcard meaning; whenever the hashtag contains
neither wildcard, the match is literal substring containment and the
original substring-union claim holds. -/
theorem C5_search_like_amended :
    ∀ (db : DB) (c : Int) (h : Txt), MWF db →
      find_messages_by_hashtag db c h = searchUnion (likeContains h) db c ∧
      (noWild h →
        find_messages_by_hashtag db c h = searchByHashtagSpec db c h) := by
  intro db c h hwf
  have h1 : find_messages_by_hashtag db c h =
      searchUnion (likeContains h) db c := by
    simp only [find_messages_by_hashtag]
    exact search_union_eq db c (likeContains h) hwf
  refine ⟨h1, fun hnw => ?_⟩
  rw [h1]
  show searchUnion (likeContains h) db c = searchUnion (isSub h) db c
  rw [show likeContains h = isSub h from
    funext (fun s => likeContains_eq_isSub h hnw.1 hnw.2 s)]

theorem C5_search_like_amended_witness :
    MWF exDbC5 ∧ noWild ([35, 120] : Txt) ∧
    find_messages_by_hashtag exDbC5 1 [35, 120] =
      searchUnion (likeContains [35, 120]) exDbC5 1 ∧
    find_messages_by_hashtag exDbC5 1 [35, 120] =
      searchByHashtagSpec exDbC5 1 [35, 120] :=
  ⟨by decide, by decide,
   (C5_search_like_amended exDbC5 1 [35, 120] (by decide)).1,
   (C5_search_like_amended exDbC5 1 [35, 120] (by decide)).2 (by decide)⟩

end TgBot
